import Mathlib

/-!
Verification of the `eth_getLogs` invariant checker
(`cmd/rpctest/rpctest/bench_ethgetlogs.go`, function `EthGetLogsInvariants`
and its local helper `noDuplicates`).

Shallow embedding notes:
* Addresses (`common.Address`), topics (`common.Hash`) and log indices
  (`hexutil.Uint`) are modelled as `Nat`; only equality of these values is
  ever used by the code.
* The JSON-RPC collaborator is modelled as an `Oracle`: a deterministic map
  from each request to either a transport-level error (`res.Err != nil`), an
  in-band RPC error (`resp.Error != nil`), or a result.
* Every function returns, besides its `Except` outcome, the list of RPC
  queries it issued, in order; a query is recorded even when it fails.
* The `errgroup` in the Go source is created but never used: the `eg.Go`
  call is commented out, so block checks run sequentially and `eg.Wait()`
  always returns `nil`.  The `select` on the progress ticker / context has a
  `default` branch; the model takes the `default` branch (no cancellation),
  which the claims under study do not touch.
* Go error values built with `fmt.Errorf` are modelled by the `Failure`
  inductive; each constructor's fields are exactly the format-verb arguments
  of the corresponding `fmt.Errorf` call, so a failure "carries" a datum iff
  the constructor has a field for it.
-/

deriving instance DecidableEq for Except

/-- A log entry as used by the checker: emitting address, ordered topics,
within-block log index (`l.Address`, `l.Topics`, `l.Index` in Go). -/
structure Log where
  address : Nat
  topics : List Nat
  index : Nat
deriving DecidableEq

/-- Outcome of one RPC call: a transport error (`res.Err != nil`) or an
application-level error object (`resp.Error != nil`, code + message). -/
inductive QueryError where
  | transport (msg : String)
  | rpc (code : Int) (msg : String)
deriving DecidableEq

/-- The JSON-RPC collaborator, as a deterministic request/response map:
`eth_blockNumber`, and `eth_getLogs` with no filter, an address filter, or
an (address, topic) filter. -/
structure Oracle where
  blockNumber : Except QueryError Nat
  getLogsNoFilters : Nat → Except QueryError (List Log)
  getLogsAddr : Nat → Nat → Except QueryError (List Log)
  getLogsAddrTopic : Nat → Nat → Nat → Except QueryError (List Log)

/-- One issued RPC query, for the query trace. -/
inductive Query where
  | blockNumber
  | unfiltered (bn : Nat)
  | byAddr (bn addr : Nat)
  | byAddrTopic (bn addr topic : Nat)
deriving DecidableEq

/-- The error values `EthGetLogsInvariants` can return.  Each constructor
corresponds to one `fmt.Errorf` call site; the fields are exactly the
non-constant format arguments of that call:
* `blockNumberTransport msg`  = "Could not get block number: %v"
* `blockNumberRpc code msg`   = "Error getting block number: %d %s"
* `getLogsTransport msg`      = "Could not get modified accounts (Erigon): %v"
* `getLogsRpc code msg`       = "Error getting modified accounts (Erigon): %d %s"
* `dupIndex bn idx`           = "eth_getLogs: at blockNum=%d duplicated log_index %d"
* `addrNotIndexed bn addr`    = "eth_getLogs: at blockNum=%d account %x not indexed"
* `dupIndexAddr bn addr idx`  = "eth_getLogs: at blockNum=%d and addr %x duplicated log_index %d"
* `topicNotIndexed bn addr t` = "eth_getLogs: at blockNum=%d account %x, topic %x not indexed"
* `dupIndexTopic bn t idx`    = "eth_getLogs: at blockNum=%d and topic %x duplicated log_index %d" -/
inductive Failure where
  | blockNumberTransport (msg : String)
  | blockNumberRpc (code : Int) (msg : String)
  | getLogsTransport (msg : String)
  | getLogsRpc (code : Int) (msg : String)
  | dupIndex (bn idx : Nat)
  | addrNotIndexed (bn addr : Nat)
  | dupIndexAddr (bn addr idx : Nat)
  | topicNotIndexed (bn addr topic : Nat)
  | dupIndexTopic (bn topic idx : Nat)
deriving DecidableEq

/-- The block number a failure carries as context, if any: the `bn` format
argument of the corresponding `fmt.Errorf` call.  The transport / RPC-error
messages have no block-number verb, so they carry none. -/
def Failure.blockNum : Failure → Option Nat
  | .blockNumberTransport _ => none
  | .blockNumberRpc _ _ => none
  | .getLogsTransport _ => none
  | .getLogsRpc _ _ => none
  | .dupIndex bn _ => some bn
  | .addrNotIndexed bn _ => some bn
  | .dupIndexAddr bn _ _ => some bn
  | .topicNotIndexed bn _ _ => some bn
  | .dupIndexTopic bn _ _ => some bn

/-- How a failed `eth_getLogs` call is reported (the two error branches
repeated after every `reqGen.Erigon("eth_getLogs", ...)` call). -/
def queryFailure : QueryError → Failure
  | .transport m => .getLogsTransport m
  | .rpc c m => .getLogsRpc c m

/-- First value appearing twice in adjacent positions (the Go loop
`for i := 1; i < len(logs); i++ { if indices[i-1] == indices[i] ... }`,
returning `indices[i]` at the first hit). -/
def firstAdjDup : List Nat → Option Nat
  | a :: b :: rest => if a = b then some b else firstAdjDup (b :: rest)
  | _ => none

/-- The `noDuplicates` closure: with 0 or 1 logs return `nil`; otherwise copy
the log indices into a fresh slice, sort it ascending (`slices.Sort`), and
return the first adjacent duplicate found, as
`fmt.Errorf("duplicated log_index %d", indices[i])`.
`some i` models that error (naming `i`); `none` models `nil`.
(`slices.Sort` is modelled by insertion sort: on a list of `Nat` every
correct ascending sort produces the same list — the unique sorted
permutation — so the choice of algorithm is observationally irrelevant.) -/
def noDuplicates (logs : List Log) : Option Nat :=
  if logs.length ≤ 1 then none
  else firstAdjDup (List.insertionSort (· ≤ ·) (logs.map Log.index))

/-- The address-filtered re-query and its three checks (transport/RPC error,
`invariant1` emptiness check, duplicate check), lines 209–223 of the Go
source. -/
def addrCheck (O : Oracle) (bn a : Nat) : Except Failure Unit :=
  match O.getLogsAddr bn a with
  | .error e => .error (queryFailure e)
  | .ok fl =>
    if fl.length = 0 then .error (.addrNotIndexed bn a)
    else
      match noDuplicates fl with
      | some i => .error (.dupIndexAddr bn a i)
      | none => .ok ()

/-- The (address, first-topic)-filtered re-query and its three checks
(transport/RPC error, `invariant2` emptiness check, duplicate check),
lines 235–247 of the Go source. -/
def topicCheck (O : Oracle) (bn a t : Nat) : Except Failure Unit :=
  match O.getLogsAddrTopic bn a t with
  | .error e => .error (queryFailure e)
  | .ok fl =>
    if fl.length = 0 then .error (.topicNotIndexed bn a t)
    else
      match noDuplicates fl with
      | some i => .error (.dupIndexTopic bn t i)
      | none => .ok ()

/-- The `for _, l := range resp.Result` loop (lines 203–248): iterate the
unfiltered result, skipping addresses already in `sawAddr`; for a new
address run `addrCheck`; then, if the entry has topics and its first topic
is not in `sawTopic`, run `topicCheck`.  `sawA` / `sawT` model the two Go
maps (only membership is used); the returned list is the trace of filtered
queries issued, in order. -/
def checkLogsLoop (O : Oracle) (bn : Nat) :
    List Log → List Nat → List Nat → Except Failure Unit × List Query
  | [], _, _ => (.ok (), [])
  | l :: rest, sawA, sawT =>
    if l.address ∈ sawA then
      checkLogsLoop O bn rest sawA sawT
    else
      match addrCheck O bn l.address with
      | .error f => (.error f, [.byAddr bn l.address])
      | .ok _ =>
        match l.topics with
        | [] =>
          let p := checkLogsLoop O bn rest (l.address :: sawA) sawT
          (p.1, .byAddr bn l.address :: p.2)
        | t :: _ =>
          if t ∈ sawT then
            let p := checkLogsLoop O bn rest (l.address :: sawA) sawT
            (p.1, .byAddr bn l.address :: p.2)
          else
            match topicCheck O bn l.address t with
            | .error f => (.error f, [.byAddr bn l.address, .byAddrTopic bn l.address t])
            | .ok _ =>
              let p := checkLogsLoop O bn rest (l.address :: sawA) (t :: sawT)
              (p.1, .byAddr bn l.address :: .byAddrTopic bn l.address t :: p.2)

/-- The body of the per-block check (lines 189–256): unfiltered query for
`bn`, transport / RPC error handling, duplicate check, then the per-log
loop with fresh `sawAddr` / `sawTopic`. -/
def checkBlock (O : Oracle) (bn : Nat) : Except Failure Unit × List Query :=
  match O.getLogsNoFilters bn with
  | .error e => (.error (queryFailure e), [.unfiltered bn])
  | .ok logs =>
    match noDuplicates logs with
    | some i => (.error (.dupIndex bn i), [.unfiltered bn])
    | none =>
      let p := checkLogsLoop O bn logs [] []
      (p.1, .unfiltered bn :: p.2)

/-- The inner batch loop `for ; bn < batchEnd; bn++` (line 186), which
checks `n` consecutive blocks starting at `bn` and returns on the first
failing block.  (`n` stands for `batchEnd - bn`.) -/
def runBatchN (O : Oracle) : Nat → Nat → Except Failure Unit × List Query
  | _, 0 => (.ok (), [])
  | bn, n + 1 =>
    match checkBlock O bn with
    | (.error e, qs) => (.error e, qs)
    | (.ok _, qs) =>
      let p := runBatchN O (bn + 1) n
      (p.1, qs ++ p.2)

/-- The outer range loop `for bn := blockFrom; bn < blockTo;` (line 181):
each iteration forms a batch `[bn, min (bn+10) blockTo)`, runs it, and
stops at the first failure (`eg.Wait()` always returns `nil` because no
goroutine is ever started via `eg.Go`). -/
def runRange (O : Oracle) (blockTo : Nat) (bn : Nat) :
    Except Failure Unit × List Query :=
  if _h : bn < blockTo then
    let batchEnd := min (bn + 10) blockTo
    match runBatchN O bn (batchEnd - bn) with
    | (.error e, qs) => (.error e, qs)
    | (.ok _, qs) =>
      let p := runRange O blockTo batchEnd
      (p.1, qs ++ p.2)
  else (.ok (), [])
termination_by blockTo - bn
decreasing_by
  omega

/-- The entry point (lines 147–267): query `eth_blockNumber` first (failing
the whole run if it errors), then drive the range loop. -/
def EthGetLogsInvariants (O : Oracle) (blockFrom blockTo : Nat) :
    Except Failure Unit × List Query :=
  match O.blockNumber with
  | .error (.transport m) => (.error (.blockNumberTransport m), [.blockNumber])
  | .error (.rpc c m) => (.error (.blockNumberRpc c m), [.blockNumber])
  | .ok _ =>
    let p := runRange O blockTo blockFrom
    (p.1, .blockNumber :: p.2)

/-- Block numbers for which an unfiltered (whole-block) query was issued —
the blocks that were "checked". -/
def blocksChecked (qs : List Query) : List Nat :=
  qs.filterMap fun
    | .unfiltered bn => some bn
    | _ => none

/-- The answer the oracle gives to a log query (the `blockNumber` query is
not a log query; it is never compared against, so it is mapped to an empty
result). -/
def logQueryAnswer (O : Oracle) : Query → Except QueryError (List Log)
  | .blockNumber => .ok []
  | .unfiltered bn => O.getLogsNoFilters bn
  | .byAddr bn a => O.getLogsAddr bn a
  | .byAddrTopic bn a t => O.getLogsAddrTopic bn a t

/-- Is this query an address-filtered query for address `a`? -/
def isAddrQueryFor (a : Nat) : Query → Bool
  | .byAddr _ a' => a' == a
  | _ => false

/-- Is this query an (address, topic)-filtered query for topic `t`? -/
def isTopicQueryFor (t : Nat) : Query → Bool
  | .byAddrTopic _ _ t' => t' == t
  | _ => false

/-! ### Concrete collaborator instances (test doubles used in the theorems) -/

/-- A collaborator on which every query succeeds with an empty log set. -/
def oracleEmpty : Oracle where
  blockNumber := .ok 0
  getLogsNoFilters := fun _ => .ok []
  getLogsAddr := fun _ _ => .ok []
  getLogsAddrTopic := fun _ _ _ => .ok []

/-- Block 5 returns two logs with the same index 0 (duplicate). -/
def oracleDupBlock5 : Oracle where
  blockNumber := .ok 0
  getLogsNoFilters := fun bn => if bn = 5 then .ok [⟨10, [1], 0⟩, ⟨10, [1], 0⟩] else .ok []
  getLogsAddr := fun _ _ => .ok []
  getLogsAddrTopic := fun _ _ _ => .ok []

/-- Block 7 returns two entries of address 12, one with first topic 9 and one
with no topics; the address filter returns both; the (12, 9) filter returns
the matching one.  A fully consistent block. -/
def oracleBlock7 : Oracle where
  blockNumber := .ok 0
  getLogsNoFilters := fun bn => if bn = 7 then .ok [⟨12, [9], 0⟩, ⟨12, [], 1⟩] else .ok []
  getLogsAddr := fun bn a => if bn = 7 ∧ a = 12 then .ok [⟨12, [9], 0⟩, ⟨12, [], 1⟩] else .ok []
  getLogsAddrTopic := fun bn a t =>
    if bn = 7 ∧ a = 12 ∧ t = 9 then .ok [⟨12, [9], 0⟩] else .ok []

/-- Block 7 returns two entries of the same address 10 with different first
topics 1 and 2; the (10, 2) filter is broken (returns empty), the rest is
consistent. -/
def oracleSkippedTopic : Oracle where
  blockNumber := .ok 0
  getLogsNoFilters := fun bn => if bn = 7 then .ok [⟨10, [1], 0⟩, ⟨10, [2], 1⟩] else .ok []
  getLogsAddr := fun bn a => if bn = 7 ∧ a = 10 then .ok [⟨10, [1], 0⟩, ⟨10, [2], 1⟩] else .ok []
  getLogsAddrTopic := fun bn a t =>
    if bn = 7 ∧ a = 10 ∧ t = 1 then .ok [⟨10, [1], 0⟩] else .ok []

/-- The unfiltered query for block 5 fails at the transport level. -/
def oracleTransport5 : Oracle where
  blockNumber := .ok 0
  getLogsNoFilters := fun bn =>
    if bn = 5 then .error (.transport "timeout") else .ok []
  getLogsAddr := fun _ _ => .ok []
  getLogsAddrTopic := fun _ _ _ => .ok []

/-- Block 6 returns one log of address 11, but the address filter returns
empty: address 11 is not indexed. -/
def oracleAddrEmpty6 : Oracle where
  blockNumber := .ok 0
  getLogsNoFilters := fun bn => if bn = 6 then .ok [⟨11, [], 0⟩] else .ok []
  getLogsAddr := fun _ _ => .ok []
  getLogsAddrTopic := fun _ _ _ => .ok []

/-! ### Properties of the duplicate check -/

lemma firstAdjDup_eq_none_iff :
    ∀ l : List Nat, firstAdjDup l = none ↔ l.Chain' (· ≠ ·)
  | [] => by simp [firstAdjDup]
  | [a] => by simp [firstAdjDup]
  | a :: b :: rest => by
    rw [firstAdjDup, List.chain'_cons]
    by_cases hab : a = b
    · simp [hab]
    · simp only [hab, if_false, Ne, not_false_iff, true_and]
      exact firstAdjDup_eq_none_iff (b :: rest)

lemma chain'_lt_of_le_ne :
    ∀ {l : List Nat}, l.Chain' (· ≤ ·) → l.Chain' (· ≠ ·) → l.Chain' (· < ·)
  | [], _, _ => by simp
  | [a], _, _ => by simp
  | a :: b :: rest, hle, hne => by
    rw [List.chain'_cons] at hle hne ⊢
    exact ⟨lt_of_le_of_ne hle.1 hne.1, chain'_lt_of_le_ne hle.2 hne.2⟩

lemma sorted_nodup_iff_chain {l : List Nat} (hs : l.Sorted (· ≤ ·)) :
    l.Nodup ↔ l.Chain' (· ≠ ·) := by
  constructor
  · exact fun h => List.Pairwise.chain' h
  · intro h
    have hlt : l.Chain' (· < ·) := chain'_lt_of_le_ne (List.Pairwise.chain' hs) h
    exact (List.chain'_iff_pairwise.mp hlt).imp Nat.ne_of_lt

lemma firstAdjDup_some_count :
    ∀ {l : List Nat} {i : Nat}, firstAdjDup l = some i → 2 ≤ l.count i
  | [], _, h => by simp [firstAdjDup] at h
  | [a], _, h => by simp [firstAdjDup] at h
  | a :: b :: rest, i, h => by
    rw [firstAdjDup] at h
    by_cases hab : a = b
    · simp only [hab, if_true, Option.some.injEq] at h
      subst h; subst hab
      simp [List.count_cons]
    · simp only [hab, if_false] at h
      have := firstAdjDup_some_count h
      have hle : (b :: rest).count i ≤ (a :: b :: rest).count i :=
        (List.sublist_cons_self a (b :: rest)).count_le i
      omega

lemma noDuplicates_eq_none_iff (logs : List Log) :
    noDuplicates logs = none ↔ (logs.map Log.index).Nodup := by
  rw [noDuplicates]
  by_cases h : logs.length ≤ 1
  · simp only [h, if_true, true_iff]
    match logs, h with
    | [], _ => simp
    | [l], _ => simp
  · simp only [h, if_false]
    have hperm := List.perm_insertionSort (· ≤ ·) (logs.map Log.index)
    rw [firstAdjDup_eq_none_iff,
      ← sorted_nodup_iff_chain (List.sorted_insertionSort (· ≤ ·) (logs.map Log.index))]
    exact hperm.nodup_iff

lemma noDuplicates_some_count {logs : List Log} {i : Nat}
    (h : noDuplicates logs = some i) : 2 ≤ (logs.map Log.index).count i := by
  rw [noDuplicates] at h
  by_cases hl : logs.length ≤ 1
  · simp [hl] at h
  · simp only [hl, if_false] at h
    have := firstAdjDup_some_count h
    rwa [(List.perm_insertionSort (· ≤ ·) (logs.map Log.index)).count_eq] at this

lemma insertionSort_eq_of_perm {l₁ l₂ : List Nat} (h : l₁.Perm l₂) :
    List.insertionSort (· ≤ ·) l₁ = List.insertionSort (· ≤ ·) l₂ :=
  List.eq_of_perm_of_sorted
    ((List.perm_insertionSort _ l₁).trans (h.trans (List.perm_insertionSort _ l₂).symm))
    (List.sorted_insertionSort _ l₁) (List.sorted_insertionSort _ l₂)

/-- C3: the duplicate check fails if and only if the input log set contains a
repeated log-index value: it returns no error exactly when the index values
are all distinct (in particular for 0- or 1-entry sets, whose index lists
are trivially `Nodup`), and when it returns an error the named value occurs
at least twice among the index values. -/
theorem C3_duplicate_check_iff_repeated (logs : List Log) :
    (noDuplicates logs = none ↔ (logs.map Log.index).Nodup) ∧
    (∀ i, noDuplicates logs = some i → 2 ≤ (logs.map Log.index).count i) :=
  ⟨noDuplicates_eq_none_iff logs, fun _ h => noDuplicates_some_count h⟩

/-- Witness for C3 at concrete inputs: a set with repeated index 3 yields an
error naming a value that repeats, and a distinct-index set passes. -/
theorem C3_duplicate_check_iff_repeated_witness :
    2 ≤ (([⟨1, [], 3⟩, ⟨1, [], 1⟩, ⟨2, [], 3⟩] : List Log).map Log.index).count 3 ∧
    noDuplicates ([⟨1, [], 0⟩, ⟨2, [], 1⟩] : List Log) = none :=
  ⟨(C3_duplicate_check_iff_repeated [⟨1, [], 3⟩, ⟨1, [], 1⟩, ⟨2, [], 3⟩]).2 3 (by decide),
   (C3_duplicate_check_iff_repeated [⟨1, [], 0⟩, ⟨2, [], 1⟩]).1.mpr (by decide)⟩

/-- C10: the duplicate check is permutation-invariant — it depends only on
the multiset of log-index values, so in particular any reordering of the
entries (which permutes the mapped index list) gives the same result.
(Read-only-ness holds by construction: the Go code sorts a fresh copy of the
indices and never writes to `logs`; the embedding is a pure function.) -/
theorem C10_noDuplicates_perm_invariant (l₁ l₂ : List Log)
    (h : (l₁.map Log.index).Perm (l₂.map Log.index)) :
    noDuplicates l₁ = noDuplicates l₂ := by
  have hlen : l₁.length = l₂.length := by simpa using h.length_eq
  rw [noDuplicates, noDuplicates, hlen, insertionSort_eq_of_perm h]

/-- Witness for C10: two reorderings with the same index multiset agree. -/
theorem C10_noDuplicates_perm_invariant_witness :
    noDuplicates ([⟨1, [], 0⟩, ⟨2, [], 1⟩] : List Log) =
      noDuplicates ([⟨3, [], 1⟩, ⟨4, [], 0⟩] : List Log) :=
  C10_noDuplicates_perm_invariant _ _ (by decide)

/-! ### Behaviour of the filtered re-queries -/

lemma addrCheck_error {O : Oracle} {bn a : Nat} {e : QueryError}
    (h : O.getLogsAddr bn a = .error e) :
    addrCheck O bn a = .error (queryFailure e) := by
  unfold addrCheck
  rw [h]

lemma addrCheck_empty {O : Oracle} {bn a : Nat}
    (h : O.getLogsAddr bn a = .ok []) :
    addrCheck O bn a = .error (.addrNotIndexed bn a) := by
  unfold addrCheck
  rw [h]
  simp

lemma addrCheck_ok_nonempty {O : Oracle} {bn a : Nat}
    (h : addrCheck O bn a = .ok ()) :
    ∃ fl, O.getLogsAddr bn a = .ok fl ∧ fl ≠ [] := by
  unfold addrCheck at h
  rcases hq : O.getLogsAddr bn a with e | fl <;> rw [hq] at h
  · simp at h
  · refine ⟨fl, rfl, fun hnil => ?_⟩
    subst hnil
    simp at h

lemma topicCheck_error {O : Oracle} {bn a t : Nat} {e : QueryError}
    (h : O.getLogsAddrTopic bn a t = .error e) :
    topicCheck O bn a t = .error (queryFailure e) := by
  unfold topicCheck
  rw [h]

lemma topicCheck_empty {O : Oracle} {bn a t : Nat}
    (h : O.getLogsAddrTopic bn a t = .ok []) :
    topicCheck O bn a t = .error (.topicNotIndexed bn a t) := by
  unfold topicCheck
  rw [h]
  simp

lemma topicCheck_ok_nonempty {O : Oracle} {bn a t : Nat}
    (h : topicCheck O bn a t = .ok ()) :
    ∃ fl, O.getLogsAddrTopic bn a t = .ok fl ∧ fl ≠ [] := by
  unfold topicCheck at h
  rcases hq : O.getLogsAddrTopic bn a t with e | fl <;> rw [hq] at h
  · simp at h
  · refine ⟨fl, rfl, fun hnil => ?_⟩
    subst hnil
    simp at h

/-- The per-log loop issues no unfiltered queries. -/
lemma checkLogsLoop_no_unfiltered (O : Oracle) (bn : Nat) :
    ∀ (logs : List Log) (sawA sawT : List Nat),
      blocksChecked (checkLogsLoop O bn logs sawA sawT).2 = []
  | [], _, _ => rfl
  | lg :: rest, sawA, sawT => by
    simp only [checkLogsLoop]
    by_cases haddr : lg.address ∈ sawA
    · simp only [if_pos haddr]
      exact checkLogsLoop_no_unfiltered O bn rest sawA sawT
    · simp only [if_neg haddr]
      rcases hac : addrCheck O bn lg.address with f | u
    
      · simp [blocksChecked]
      · rcases htp : lg.topics with _ | ⟨t0, ts⟩
        · simp only [blocksChecked, List.filterMap_cons]
          exact checkLogsLoop_no_unfiltered O bn rest (lg.address :: sawA) sawT
        · by_cases hts : t0 ∈ sawT
          · simp only [if_pos hts, blocksChecked, List.filterMap_cons]
            exact checkLogsLoop_no_unfiltered O bn rest (lg.address :: sawA) sawT
          · simp only [if_neg hts]
            rcases htc : topicCheck O bn lg.address t0 with f | u
            · simp [blocksChecked]
            · simp only [blocksChecked, List.filterMap_cons]
              exact checkLogsLoop_no_unfiltered O bn rest (lg.address :: sawA) (t0 :: sawT)

/-! ### One-step unfolding equations for the per-log loop -/

lemma checkLogsLoop_cons_skip {O : Oracle} {bn : Nat} {l : Log} {rest : List Log}
    {sawA sawT : List Nat} (h : l.address ∈ sawA) :
    checkLogsLoop O bn (l :: rest) sawA sawT = checkLogsLoop O bn rest sawA sawT := by
  simp only [checkLogsLoop, if_pos h]

lemma checkLogsLoop_cons_addr_error {O : Oracle} {bn : Nat} {l : Log} {rest : List Log}
    {sawA sawT : List Nat} {f : Failure} (hmem : l.address ∉ sawA)
    (hac : addrCheck O bn l.address = .error f) :
    checkLogsLoop O bn (l :: rest) sawA sawT = (.error f, [.byAddr bn l.address]) := by
  simp only [checkLogsLoop, if_neg hmem, hac]

lemma checkLogsLoop_cons_no_topic {O : Oracle} {bn : Nat} {l : Log} {rest : List Log}
    {sawA sawT : List Nat} (hmem : l.address ∉ sawA)
    (hac : addrCheck O bn l.address = .ok ()) (htp : l.topics = []) :
    checkLogsLoop O bn (l :: rest) sawA sawT =
      ((checkLogsLoop O bn rest (l.address :: sawA) sawT).1,
       .byAddr bn l.address :: (checkLogsLoop O bn rest (l.address :: sawA) sawT).2) := by
  simp only [checkLogsLoop, if_neg hmem, hac, htp]

lemma checkLogsLoop_cons_topic_seen {O : Oracle} {bn : Nat} {l : Log} {rest : List Log}
    {sawA sawT : List Nat} {t : Nat} {ts : List Nat} (hmem : l.address ∉ sawA)
    (hac : addrCheck O bn l.address = .ok ()) (htp : l.topics = t :: ts) (hts : t ∈ sawT) :
    checkLogsLoop O bn (l :: rest) sawA sawT =
      ((checkLogsLoop O bn rest (l.address :: sawA) sawT).1,
       .byAddr bn l.address :: (checkLogsLoop O bn rest (l.address :: sawA) sawT).2) := by
  simp only [checkLogsLoop, if_neg hmem, hac, htp, if_pos hts]

lemma checkLogsLoop_cons_topic_error {O : Oracle} {bn : Nat} {l : Log} {rest : List Log}
    {sawA sawT : List Nat} {t : Nat} {ts : List Nat} {f : Failure} (hmem : l.address ∉ sawA)
    (hac : addrCheck O bn l.address = .ok ()) (htp : l.topics = t :: ts) (hts : t ∉ sawT)
    (htc : topicCheck O bn l.address t = .error f) :
    checkLogsLoop O bn (l :: rest) sawA sawT =
      (.error f, [.byAddr bn l.address, .byAddrTopic bn l.address t]) := by
  simp only [checkLogsLoop, if_neg hmem, hac, htp, if_neg hts, htc]

lemma checkLogsLoop_cons_topic_new {O : Oracle} {bn : Nat} {l : Log} {rest : List Log}
    {sawA sawT : List Nat} {t : Nat} {ts : List Nat} (hmem : l.address ∉ sawA)
    (hac : addrCheck O bn l.address = .ok ()) (htp : l.topics = t :: ts) (hts : t ∉ sawT)
    (htc : topicCheck O bn l.address t = .ok ()) :
    checkLogsLoop O bn (l :: rest) sawA sawT =
      ((checkLogsLoop O bn rest (l.address :: sawA) (t :: sawT)).1,
       .byAddr bn l.address :: .byAddrTopic bn l.address t ::
         (checkLogsLoop O bn rest (l.address :: sawA) (t :: sawT)).2) := by
  simp only [checkLogsLoop, if_neg hmem, hac, htp, if_neg hts, htc]

/-- If the per-log loop succeeds, every entry's address was either already in
`sawA` on entry, or an address-filtered query for it was issued and the
collaborator returned a non-empty result for it. -/
lemma checkLogsLoop_ok_addr (O : Oracle) (bn : Nat) :
    ∀ (logs : List Log) (sawA sawT : List Nat),
      (checkLogsLoop O bn logs sawA sawT).1 = .ok () →
      ∀ l ∈ logs, l.address ∈ sawA ∨
        (Query.byAddr bn l.address ∈ (checkLogsLoop O bn logs sawA sawT).2 ∧
         ∃ fl, O.getLogsAddr bn l.address = .ok fl ∧ fl ≠ [])
  | [], _, _, _, l, hl => absurd hl (List.not_mem_nil l)
  | lg :: rest, sawA, sawT, hok, l, hl => by
    by_cases haddr : lg.address ∈ sawA
    · rw [checkLogsLoop_cons_skip haddr] at hok ⊢
      rcases List.mem_cons.mp hl with hlg | hmem
      · exact Or.inl (hlg ▸ haddr)
      · exact checkLogsLoop_ok_addr O bn rest sawA sawT hok l hmem
    · rcases hac : addrCheck O bn lg.address with f | u
      · rw [checkLogsLoop_cons_addr_error haddr hac] at hok
        simp at hok
      · cases u
        have hne := addrCheck_ok_nonempty hac
        rcases htp : lg.topics with _ | ⟨t0, ts⟩
        · rw [checkLogsLoop_cons_no_topic haddr hac htp] at hok ⊢
          simp only at hok ⊢
          rcases List.mem_cons.mp hl with hlg | hmem
          · exact Or.inr ⟨by rw [hlg]; exact List.mem_cons_self _ _, hlg ▸ hne⟩
          · rcases checkLogsLoop_ok_addr O bn rest (lg.address :: sawA) sawT hok l hmem with
              hin | ⟨hq, hfl⟩
            · rcases List.mem_cons.mp hin with heq | hin'
              · exact Or.inr ⟨by rw [heq]; exact List.mem_cons_self _ _, heq ▸ hne⟩
              · exact Or.inl hin'
            · exact Or.inr ⟨List.mem_cons_of_mem _ hq, hfl⟩
        · by_cases hts : t0 ∈ sawT
          · rw [checkLogsLoop_cons_topic_seen haddr hac htp hts] at hok ⊢
            simp only at hok ⊢
            rcases List.mem_cons.mp hl with hlg | hmem
            · exact Or.inr ⟨by rw [hlg]; exact List.mem_cons_self _ _, hlg ▸ hne⟩
            · rcases checkLogsLoop_ok_addr O bn rest (lg.address :: sawA) sawT hok l hmem with
                hin | ⟨hq, hfl⟩
              · rcases List.mem_cons.mp hin with heq | hin'
                · exact Or.inr ⟨by rw [heq]; exact List.mem_cons_self _ _, heq ▸ hne⟩
                · exact Or.inl hin'
              · exact Or.inr ⟨List.mem_cons_of_mem _ hq, hfl⟩
          · rcases htc : topicCheck O bn lg.address t0 with f | u
            · rw [checkLogsLoop_cons_topic_error haddr hac htp hts htc] at hok
              simp at hok
            · cases u
              rw [checkLogsLoop_cons_topic_new haddr hac htp hts htc] at hok ⊢
              simp only at hok ⊢
              rcases List.mem_cons.mp hl with hlg | hmem
              · exact Or.inr ⟨by rw [hlg]; exact List.mem_cons_self _ _, hlg ▸ hne⟩
              · rcases checkLogsLoop_ok_addr O bn rest (lg.address :: sawA) (t0 :: sawT)
                    hok l hmem with hin | ⟨hq, hfl⟩
                · rcases List.mem_cons.mp hin with heq | hin'
                  · exact Or.inr ⟨by rw [heq]; exact List.mem_cons_self _ _, heq ▸ hne⟩
                  · exact Or.inl hin'
                · exact Or.inr ⟨List.mem_cons_of_mem _ (List.mem_cons_of_mem _ hq), hfl⟩

/-- If an address-filtered query for `a` appears in the loop's trace and the
collaborator answers it with an empty log set, the loop fails with
`addrNotIndexed bn a`. -/
lemma checkLogsLoop_byAddr_empty (O : Oracle) (bn : Nat) :
    ∀ (logs : List Log) (sawA sawT : List Nat) (a : Nat),
      Query.byAddr bn a ∈ (checkLogsLoop O bn logs sawA sawT).2 →
      O.getLogsAddr bn a = .ok [] →
      (checkLogsLoop O bn logs sawA sawT).1 = .error (.addrNotIndexed bn a)
  | [], _, _, a, hq, _ => absurd hq (by simp [checkLogsLoop])
  | lg :: rest, sawA, sawT, a, hq, hemp => by
    by_cases haddr : lg.address ∈ sawA
    · rw [checkLogsLoop_cons_skip haddr] at hq ⊢
      exact checkLogsLoop_byAddr_empty O bn rest sawA sawT a hq hemp
    · rcases hac : addrCheck O bn lg.address with f | u
      · rw [checkLogsLoop_cons_addr_error haddr hac] at hq ⊢
        simp only [List.mem_singleton, Query.byAddr.injEq] at hq
        have ha : a = lg.address := hq.2
        subst ha
        have hae := addrCheck_empty hemp
        rw [hac] at hae
        injection hae with hf
        simp [hf]
      · cases u
        rcases addrCheck_ok_nonempty hac with ⟨fl, hfl, hne⟩
        have hnea : a ≠ lg.address := by
          intro ha
          rw [← ha, hemp] at hfl
          exact hne (by injection hfl with h; exact h.symm)
        rcases htp : lg.topics with _ | ⟨t0, ts⟩
        · rw [checkLogsLoop_cons_no_topic haddr hac htp] at hq ⊢
          simp only [List.mem_cons, Query.byAddr.injEq] at hq
          rcases hq with ⟨_, ha⟩ | hq'
          · exact absurd ha hnea
          · exact checkLogsLoop_byAddr_empty O bn rest (lg.address :: sawA) sawT a hq' hemp
        · by_cases hts : t0 ∈ sawT
          · rw [checkLogsLoop_cons_topic_seen haddr hac htp hts] at hq ⊢
            simp only [List.mem_cons, Query.byAddr.injEq] at hq
            rcases hq with ⟨_, ha⟩ | hq'
            · exact absurd ha hnea
            · exact checkLogsLoop_byAddr_empty O bn rest (lg.address :: sawA) sawT a hq' hemp
          · rcases htc : topicCheck O bn lg.address t0 with f | u
            · rw [checkLogsLoop_cons_topic_error haddr hac htp hts htc] at hq
              simp only [List.mem_cons, List.not_mem_nil, or_false,
                Query.byAddr.injEq] at hq
              rcases hq with ⟨_, ha⟩ | hq2
              · exact absurd ha hnea
              · exact absurd hq2 (by simp)
            · cases u
              rw [checkLogsLoop_cons_topic_new haddr hac htp hts htc] at hq ⊢
              simp only [List.mem_cons, Query.byAddr.injEq] at hq
              rcases hq with ⟨_, ha⟩ | hq2 | hq'
              · exact absurd ha hnea
              · exact absurd hq2 (by simp)
              · exact checkLogsLoop_byAddr_empty O bn rest (lg.address :: sawA) (t0 :: sawT)
                  a hq' hemp

/-- If an (address, topic)-filtered query for `(a, t)` appears in the loop's
trace and the collaborator answers it with an empty log set, the loop fails
with `topicNotIndexed bn a t`. -/
lemma checkLogsLoop_byAddrTopic_empty (O : Oracle) (bn : Nat) :
    ∀ (logs : List Log) (sawA sawT : List Nat) (a t : Nat),
      Query.byAddrTopic bn a t ∈ (checkLogsLoop O bn logs sawA sawT).2 →
      O.getLogsAddrTopic bn a t = .ok [] →
      (checkLogsLoop O bn logs sawA sawT).1 = .error (.topicNotIndexed bn a t)
  | [], _, _, a, t, hq, _ => absurd hq (by simp [checkLogsLoop])
  | lg :: rest, sawA, sawT, a, t, hq, hemp => by
    by_cases haddr : lg.address ∈ sawA
    · rw [checkLogsLoop_cons_skip haddr] at hq ⊢
      exact checkLogsLoop_byAddrTopic_empty O bn rest sawA sawT a t hq hemp
    · rcases hac : addrCheck O bn lg.address with f | u
      · rw [checkLogsLoop_cons_addr_error haddr hac] at hq
        exact absurd (List.mem_singleton.mp hq) (by simp)
      · cases u
        rcases htp : lg.topics with _ | ⟨t0, ts⟩
        · rw [checkLogsLoop_cons_no_topic haddr hac htp] at hq ⊢
          simp only [List.mem_cons] at hq
          rcases hq with hq1 | hq'
          · exact absurd hq1 (by simp)
          · exact checkLogsLoop_byAddrTopic_empty O bn rest (lg.address :: sawA) sawT
              a t hq' hemp
        · by_cases hts : t0 ∈ sawT
          · rw [checkLogsLoop_cons_topic_seen haddr hac htp hts] at hq ⊢
            simp only [List.mem_cons] at hq
            rcases hq with hq1 | hq'
            · exact absurd hq1 (by simp)
            · exact checkLogsLoop_byAddrTopic_empty O bn rest (lg.address :: sawA) sawT
                a t hq' hemp
          · rcases htc : topicCheck O bn lg.address t0 with f | u
            · rw [checkLogsLoop_cons_topic_error haddr hac htp hts htc] at hq ⊢
              simp only [List.mem_cons, List.not_mem_nil, or_false,
                Query.byAddrTopic.injEq] at hq
              rcases hq with hq1 | ⟨_, ha, ht⟩
              · exact absurd hq1 (by simp)
              · subst ha; subst ht
                have hte := topicCheck_empty hemp
                rw [htc] at hte
                injection hte with hf
                simp [hf]
            · cases u
              rcases topicCheck_ok_nonempty htc with ⟨fl, hfl, hne⟩
              rw [checkLogsLoop_cons_topic_new haddr hac htp hts htc] at hq ⊢
              simp only [List.mem_cons, Query.byAddrTopic.injEq] at hq
              rcases hq with hq1 | ⟨_, ha, ht⟩ | hq'
              · exact absurd hq1 (by simp)
              · subst ha; subst ht
                rw [hemp] at hfl
                exact absurd (by injection hfl with h; exact h.symm) hne
              · exact checkLogsLoop_byAddrTopic_empty O bn rest (lg.address :: sawA)
                  (t0 :: sawT) a t hq' hemp

/-- If a query in the loop's trace is answered with a transport/RPC error,
the loop fails with the corresponding `queryFailure`. -/
lemma checkLogsLoop_query_error (O : Oracle) (bn : Nat) :
    ∀ (logs : List Log) (sawA sawT : List Nat) (q : Query) (e : QueryError),
      q ∈ (checkLogsLoop O bn logs sawA sawT).2 →
      logQueryAnswer O q = .error e →
      (checkLogsLoop O bn logs sawA sawT).1 = .error (queryFailure e)
  | [], _, _, q, e, hq, _ => absurd hq (by simp [checkLogsLoop])
  | lg :: rest, sawA, sawT, q, e, hq, hqa => by
    by_cases haddr : lg.address ∈ sawA
    · rw [checkLogsLoop_cons_skip haddr] at hq ⊢
      exact checkLogsLoop_query_error O bn rest sawA sawT q e hq hqa
    · rcases hac : addrCheck O bn lg.address with f | u
      · rw [checkLogsLoop_cons_addr_error haddr hac] at hq ⊢
        have hQ := List.mem_singleton.mp hq
        subst hQ
        simp only [logQueryAnswer] at hqa
        have hae := addrCheck_error hqa
        rw [hac] at hae
        injection hae with hf
        simp [hf]
      · cases u
        rcases addrCheck_ok_nonempty hac with ⟨fl, hfl, _⟩
        have hheadA : q = Query.byAddr bn lg.address → False := by
          intro hQ
          subst hQ
          simp only [logQueryAnswer] at hqa
          rw [hqa] at hfl
          exact Except.noConfusion hfl
        rcases htp : lg.topics with _ | ⟨t0, ts⟩
        · rw [checkLogsLoop_cons_no_topic haddr hac htp] at hq ⊢
          rcases List.mem_cons.mp hq with hQ | hq'
          · exact absurd hQ hheadA
          · exact checkLogsLoop_query_error O bn rest (lg.address :: sawA) sawT q e hq' hqa
        · by_cases hts : t0 ∈ sawT
          · rw [checkLogsLoop_cons_topic_seen haddr hac htp hts] at hq ⊢
            rcases List.mem_cons.mp hq with hQ | hq'
            · exact absurd hQ hheadA
            · exact checkLogsLoop_query_error O bn rest (lg.address :: sawA) sawT q e hq' hqa
          · rcases htc : topicCheck O bn lg.address t0 with f | u
            · rw [checkLogsLoop_cons_topic_error haddr hac htp hts htc] at hq ⊢
              simp only [List.mem_cons, List.not_mem_nil, or_false] at hq
              rcases hq with hQ | hQ
              · exact absurd hQ hheadA
              · subst hQ
                simp only [logQueryAnswer] at hqa
                have hte := topicCheck_error hqa
                rw [htc] at hte
                injection hte with hf
                simp [hf]
            · cases u
              rcases topicCheck_ok_nonempty htc with ⟨fl2, hfl2, _⟩
              rw [checkLogsLoop_cons_topic_new haddr hac htp hts htc] at hq ⊢
              rcases List.mem_cons.mp hq with hQ | hq2
              · exact absurd hQ hheadA
              · rcases List.mem_cons.mp hq2 with hQ | hq'
                · subst hQ
                  simp only [logQueryAnswer] at hqa
                  rw [hqa] at hfl2
                  exact Except.noConfusion hfl2
                · exact checkLogsLoop_query_error O bn rest (lg.address :: sawA) (t0 :: sawT)
                    q e hq' hqa

lemma isAddrQueryFor_byAddr (a bn a' : Nat) :
    isAddrQueryFor a (Query.byAddr bn a') = (a' == a) := rfl

lemma isAddrQueryFor_byAddrTopic (a bn a' t : Nat) :
    isAddrQueryFor a (Query.byAddrTopic bn a' t) = false := rfl

lemma isTopicQueryFor_byAddr (t bn a : Nat) :
    isTopicQueryFor t (Query.byAddr bn a) = false := rfl

lemma isTopicQueryFor_byAddrTopic (t bn a t' : Nat) :
    isTopicQueryFor t (Query.byAddrTopic bn a t') = (t' == t) := rfl

/-- Per-loop-run, at most one address-filtered query is issued for any given
address, and none at all for addresses already in `sawA` on entry. -/
lemma checkLogsLoop_countAddr (O : Oracle) (bn : Nat) :
    ∀ (logs : List Log) (sawA sawT : List Nat) (a : Nat),
      (a ∈ sawA → (checkLogsLoop O bn logs sawA sawT).2.countP (isAddrQueryFor a) = 0) ∧
      (checkLogsLoop O bn logs sawA sawT).2.countP (isAddrQueryFor a) ≤ 1
  | [], _, _, a => by simp [checkLogsLoop]
  | lg :: rest, sawA, sawT, a => by
    by_cases haddr : lg.address ∈ sawA
    · rw [checkLogsLoop_cons_skip haddr]
      exact checkLogsLoop_countAddr O bn rest sawA sawT a
    · rcases hac : addrCheck O bn lg.address with f | u
      · rw [checkLogsLoop_cons_addr_error haddr hac]
        simp only [List.countP_cons, List.countP_nil, isAddrQueryFor_byAddr]
        constructor
        · intro hA
          have : (lg.address == a) = false :=
            beq_eq_false_iff_ne.mpr (fun heq => haddr (heq ▸ hA))
          simp [this]
        · by_cases heq : lg.address = a <;> simp [heq]
      · cases u
        have key : ∀ sawT',
            ((a ∈ lg.address :: sawA →
              (checkLogsLoop O bn rest (lg.address :: sawA) sawT').2.countP
                (isAddrQueryFor a) = 0) ∧
             (checkLogsLoop O bn rest (lg.address :: sawA) sawT').2.countP
                (isAddrQueryFor a) ≤ 1) →
            (a ∈ sawA →
              (checkLogsLoop O bn rest (lg.address :: sawA) sawT').2.countP
                  (isAddrQueryFor a) + (if (lg.address == a) = true then 1 else 0) = 0) ∧
            (checkLogsLoop O bn rest (lg.address :: sawA) sawT').2.countP
                (isAddrQueryFor a) + (if (lg.address == a) = true then 1 else 0) ≤ 1 := by
          intro sawT' ih
          constructor
          · intro hA
            have hne : (lg.address == a) = false :=
              beq_eq_false_iff_ne.mpr (fun heq => haddr (heq ▸ hA))
            have h0 := ih.1 (List.mem_cons_of_mem _ hA)
            rw [h0, hne]
            simp
          · by_cases heq : lg.address = a
            · have h0 := ih.1 (heq ▸ List.mem_cons_self _ _)
              have hbeq : (lg.address == a) = true := beq_iff_eq.mpr heq
              rw [h0, hbeq]
              simp
            · have hne : (lg.address == a) = false := beq_eq_false_iff_ne.mpr heq
              have h1 := ih.2
              rw [hne]
              simp only [Bool.false_eq_true, if_false]
              omega
        rcases htp : lg.topics with _ | ⟨t0, ts⟩
        · rw [checkLogsLoop_cons_no_topic haddr hac htp]
          simp only [List.countP_cons, isAddrQueryFor_byAddr]
          exact key sawT (checkLogsLoop_countAddr O bn rest (lg.address :: sawA) sawT a)
        · by_cases hts : t0 ∈ sawT
          · rw [checkLogsLoop_cons_topic_seen haddr hac htp hts]
            simp only [List.countP_cons, isAddrQueryFor_byAddr]
            exact key sawT (checkLogsLoop_countAddr O bn rest (lg.address :: sawA) sawT a)
          · rcases htc : topicCheck O bn lg.address t0 with f | u
            · rw [checkLogsLoop_cons_topic_error haddr hac htp hts htc]
              simp only [List.countP_cons, List.countP_nil, isAddrQueryFor_byAddr,
                isAddrQueryFor_byAddrTopic, if_false, Bool.false_eq_true]
              constructor
              · intro hA
                have : (lg.address == a) = false :=
                  beq_eq_false_iff_ne.mpr (fun heq => haddr (heq ▸ hA))
                simp [this]
              · by_cases heq : lg.address = a <;> simp [heq]
            · cases u
              rw [checkLogsLoop_cons_topic_new haddr hac htp hts htc]
              simp only [List.countP_cons, isAddrQueryFor_byAddr,
                isAddrQueryFor_byAddrTopic, if_false, Bool.false_eq_true, Nat.add_zero]
              exact key (t0 :: sawT)
                (checkLogsLoop_countAddr O bn rest (lg.address :: sawA) (t0 :: sawT) a)

/-- Per-loop-run, at most one (address, topic)-filtered query is issued for
any given topic value, and none at all for topics already in `sawT` on
entry. -/
lemma checkLogsLoop_countTopic (O : Oracle) (bn : Nat) :
    ∀ (logs : List Log) (sawA sawT : List Nat) (t : Nat),
      (t ∈ sawT → (checkLogsLoop O bn logs sawA sawT).2.countP (isTopicQueryFor t) = 0) ∧
      (checkLogsLoop O bn logs sawA sawT).2.countP (isTopicQueryFor t) ≤ 1
  | [], _, _, t => by simp [checkLogsLoop]
  | lg :: rest, sawA, sawT, t => by
    by_cases haddr : lg.address ∈ sawA
    · rw [checkLogsLoop_cons_skip haddr]
      exact checkLogsLoop_countTopic O bn rest sawA sawT t
    · rcases hac : addrCheck O bn lg.address with f | u
      · rw [checkLogsLoop_cons_addr_error haddr hac]
        simp [List.countP_cons, isTopicQueryFor_byAddr]
      · cases u
        rcases htp : lg.topics with _ | ⟨t0, ts⟩
        · rw [checkLogsLoop_cons_no_topic haddr hac htp]
          simp only [List.countP_cons, isTopicQueryFor_byAddr, Bool.false_eq_true,
            if_false, Nat.add_zero]
          exact checkLogsLoop_countTopic O bn rest (lg.address :: sawA) sawT t
        · by_cases hts : t0 ∈ sawT
          · rw [checkLogsLoop_cons_topic_seen haddr hac htp hts]
            simp only [List.countP_cons, isTopicQueryFor_byAddr, Bool.false_eq_true,
              if_false, Nat.add_zero]
            exact checkLogsLoop_countTopic O bn rest (lg.address :: sawA) sawT t
          · rcases htc : topicCheck O bn lg.address t0 with f | u
            · rw [checkLogsLoop_cons_topic_error haddr hac htp hts htc]
              simp only [List.countP_cons, List.countP_nil, isTopicQueryFor_byAddr,
                isTopicQueryFor_byAddrTopic, Bool.false_eq_true, if_false,
                Nat.zero_add, Nat.add_zero]
              constructor
              · intro hT
                have hne : (t0 == t) = false :=
                  beq_eq_false_iff_ne.mpr (fun heq => hts (heq ▸ hT))
                simp [hne]
              · by_cases heq : t0 = t <;> simp [heq]
            · cases u
              rw [checkLogsLoop_cons_topic_new haddr hac htp hts htc]
              simp only [List.countP_cons, isTopicQueryFor_byAddr,
                isTopicQueryFor_byAddrTopic, Bool.false_eq_true, if_false, Nat.add_zero]
              have ih := checkLogsLoop_countTopic O bn rest (lg.address :: sawA) (t0 :: sawT) t
              constructor
              · intro hT
                have hne : (t0 == t) = false :=
                  beq_eq_false_iff_ne.mpr (fun heq => hts (heq ▸ hT))
                have h0 := ih.1 (List.mem_cons_of_mem _ hT)
                simp [h0, hne]
              · by_cases heq : t0 = t
                · subst heq
                  have h0 := ih.1 (List.mem_cons_self _ _)
                  simp [h0]
                · have hne : (t0 == t) = false := beq_eq_false_iff_ne.mpr heq
                  have h1 := ih.2
                  simp only [hne, Bool.false_eq_true, if_false]
                  omega

/-- If the per-log loop succeeds, then for every entry `l` that is the first
occurrence of its address in the remaining list (and whose address is not in
`sawA`), `l`'s first topic was either already in `sawT` on entry, or some
(address, topic)-filtered query for that topic value was issued and answered
with a non-empty result. -/
lemma checkLogsLoop_ok_topic (O : Oracle) (bn : Nat) :
    ∀ (logs : List Log) (sawA sawT : List Nat),
      (checkLogsLoop O bn logs sawA sawT).1 = .ok () →
      ∀ (pre : List Log) (l : Log) (post : List Log),
        logs = pre ++ l :: post →
        (∀ l' ∈ pre, l'.address ≠ l.address) →
        l.address ∉ sawA →
        ∀ (t : Nat) (ts : List Nat), l.topics = t :: ts →
        t ∈ sawT ∨ ∃ a, Query.byAddrTopic bn a t ∈ (checkLogsLoop O bn logs sawA sawT).2 ∧
          ∃ fl, O.getLogsAddrTopic bn a t = .ok fl ∧ fl ≠ []
  | [], _, _, _, pre, l, post, hsplit, _, _, t, ts, _ =>
    absurd hsplit (by simp)
  | lg :: rest, sawA, sawT, hok, pre, l, post, hsplit, hpre, hnA, t, ts, htop => by
    rcases pre with _ | ⟨p, pre'⟩
    · simp only [List.nil_append, List.cons.injEq] at hsplit
      obtain ⟨hlg, hrest⟩ := hsplit
      subst hlg
      by_cases hts0 : t ∈ sawT
      · exact Or.inl hts0
      · rcases hac : addrCheck O bn lg.address with f | u
        · rw [checkLogsLoop_cons_addr_error hnA hac] at hok
          simp at hok
        · cases u
          rcases htc : topicCheck O bn lg.address t with f | u
          · rw [checkLogsLoop_cons_topic_error hnA hac htop hts0 htc] at hok
            simp at hok
          · cases u
            rw [checkLogsLoop_cons_topic_new hnA hac htop hts0 htc]
            exact Or.inr ⟨lg.address,
              List.mem_cons_of_mem _ (List.mem_cons_self _ _),
              topicCheck_ok_nonempty htc⟩
    · simp only [List.cons_append, List.cons.injEq] at hsplit
      obtain ⟨hlg, hrest⟩ := hsplit
      subst hlg
      have hpne : lg.address ≠ l.address := hpre lg (List.mem_cons_self _ _)
      have hpre' : ∀ l' ∈ pre', l'.address ≠ l.address :=
        fun l' hl' => hpre l' (List.mem_cons_of_mem _ hl')
      by_cases haddr : lg.address ∈ sawA
      · rw [checkLogsLoop_cons_skip haddr] at hok ⊢
        exact checkLogsLoop_ok_topic O bn rest sawA sawT hok pre' l post hrest
          hpre' hnA t ts htop
      · rcases hac : addrCheck O bn lg.address with f | u
        · rw [checkLogsLoop_cons_addr_error haddr hac] at hok
          simp at hok
        · cases u
          have hnA' : l.address ∉ lg.address :: sawA := by
            intro hmem
            rcases List.mem_cons.mp hmem with heq | hin
            · exact hpne heq.symm
            · exact hnA hin
          rcases htp : lg.topics with _ | ⟨t0, ts0⟩
          · rw [checkLogsLoop_cons_no_topic haddr hac htp] at hok ⊢
            simp only at hok
            rcases checkLogsLoop_ok_topic O bn rest (lg.address :: sawA) sawT hok
                pre' l post hrest hpre' hnA' t ts htop with hin | ⟨a, hq, hfl⟩
            · exact Or.inl hin
            · exact Or.inr ⟨a, List.mem_cons_of_mem _ hq, hfl⟩
          · by_cases hts1 : t0 ∈ sawT
            · rw [checkLogsLoop_cons_topic_seen haddr hac htp hts1] at hok ⊢
              simp only at hok
              rcases checkLogsLoop_ok_topic O bn rest (lg.address :: sawA) sawT hok
                  pre' l post hrest hpre' hnA' t ts htop with hin | ⟨a, hq, hfl⟩
              · exact Or.inl hin
              · exact Or.inr ⟨a, List.mem_cons_of_mem _ hq, hfl⟩
            · rcases htc : topicCheck O bn lg.address t0 with f | u
              · rw [checkLogsLoop_cons_topic_error haddr hac htp hts1 htc] at hok
                simp at hok
              · cases u
                rw [checkLogsLoop_cons_topic_new haddr hac htp hts1 htc] at hok ⊢
                simp only at hok
                rcases checkLogsLoop_ok_topic O bn rest (lg.address :: sawA) (t0 :: sawT)
                    hok pre' l post hrest hpre' hnA' t ts htop with hin | ⟨a, hq, hfl⟩
                · rcases List.mem_cons.mp hin with heq | hin'
                  · subst heq
                    exact Or.inr ⟨lg.address,
                      List.mem_cons_of_mem _ (List.mem_cons_self _ _),
                      topicCheck_ok_nonempty htc⟩
                  · exact Or.inl hin'
                · exact Or.inr ⟨a,
                    List.mem_cons_of_mem _ (List.mem_cons_of_mem _ hq), hfl⟩

/-! ### Behaviour of the per-block check -/

lemma checkBlock_unfiltered_error {O : Oracle} {bn : Nat} {e : QueryError}
    (h : O.getLogsNoFilters bn = .error e) :
    checkBlock O bn = (.error (queryFailure e), [.unfiltered bn]) := by
  unfold checkBlock
  rw [h]

lemma checkBlock_dup {O : Oracle} {bn : Nat} {logs : List Log} {i : Nat}
    (h : O.getLogsNoFilters bn = .ok logs) (hd : noDuplicates logs = some i) :
    checkBlock O bn = (.error (.dupIndex bn i), [.unfiltered bn]) := by
  unfold checkBlock
  rw [h]
  simp only [hd]

lemma checkBlock_nodup {O : Oracle} {bn : Nat} {logs : List Log}
    (h : O.getLogsNoFilters bn = .ok logs) (hd : noDuplicates logs = none) :
    checkBlock O bn =
      ((checkLogsLoop O bn logs [] []).1,
       .unfiltered bn :: (checkLogsLoop O bn logs [] []).2) := by
  unfold checkBlock
  rw [h]
  simp only [hd]

/-- Each per-block check queries exactly its own block number without filter
(once, first), whatever the collaborator answers. -/
lemma checkBlock_blocksChecked (O : Oracle) (bn : Nat) :
    blocksChecked (checkBlock O bn).2 = [bn] := by
  rcases hq : O.getLogsNoFilters bn with e | logs
  · rw [checkBlock_unfiltered_error hq]
    simp [blocksChecked]
  · rcases hd : noDuplicates logs with _ | i
    · rw [checkBlock_nodup hq hd]
      simp only [blocksChecked, List.filterMap_cons]
      rw [show (checkLogsLoop O bn logs [] []).2.filterMap
          (fun q => match q with | .unfiltered bn => some bn | _ => none) =
          blocksChecked (checkLogsLoop O bn logs [] []).2 from rfl,
        checkLogsLoop_no_unfiltered]
    · rw [checkBlock_dup hq hd]
      simp [blocksChecked]

/-! ### Behaviour of the batch and range drivers -/

lemma runBatchN_zero (O : Oracle) (bn : Nat) : runBatchN O bn 0 = (.ok (), []) := rfl

lemma runBatchN_succ_error {O : Oracle} {bn : Nat} {e : Failure} {qs : List Query}
    (h : checkBlock O bn = (.error e, qs)) (n : Nat) :
    runBatchN O bn (n + 1) = (.error e, qs) := by
  simp only [runBatchN, h]

lemma runBatchN_succ_ok {O : Oracle} {bn : Nat} {qs : List Query}
    (h : checkBlock O bn = (.ok (), qs)) (n : Nat) :
    runBatchN O bn (n + 1) =
      ((runBatchN O (bn + 1) n).1, qs ++ (runBatchN O (bn + 1) n).2) := by
  simp only [runBatchN, h]

/-- The batch loop succeeds iff every block in the batch passes. -/
lemma runBatchN_ok_iff (O : Oracle) :
    ∀ (n bn : Nat),
      (runBatchN O bn n).1 = .ok () ↔ ∀ k, k < n → (checkBlock O (bn + k)).1 = .ok ()
  | 0, bn => by simp [runBatchN_zero]
  | n + 1, bn => by
    rcases hcb : checkBlock O bn with ⟨r, qs⟩
    rcases r with e | u
    · rw [runBatchN_succ_error hcb n]
      constructor
      · intro h
        exact absurd h (by simp)
      · intro h
        have h0 := h 0 (Nat.succ_pos n)
        rw [Nat.add_zero, hcb] at h0
        exact absurd h0 (by simp)
    · cases u
      rw [runBatchN_succ_ok hcb n]
      simp only
      rw [runBatchN_ok_iff O n (bn + 1)]
      constructor
      · intro h k hk
        rcases k with _ | j
        · rw [Nat.add_zero, hcb]
        · rw [show bn + (j + 1) = bn + 1 + j by omega]
          exact h j (by omega)
      · intro h k hk
        rw [show bn + 1 + k = bn + (k + 1) by omega]
        exact h (k + 1) (by omega)

/-- On success, the batch loop checks exactly the blocks `bn, …, bn+n-1`,
in order. -/
lemma runBatchN_ok_trace (O : Oracle) :
    ∀ (n bn : Nat), (runBatchN O bn n).1 = .ok () →
      blocksChecked (runBatchN O bn n).2 = List.range' bn n
  | 0, bn, _ => by simp [runBatchN_zero, blocksChecked]
  | n + 1, bn, hok => by
    rcases hcb : checkBlock O bn with ⟨r, qs⟩
    rcases r with e | u
    · rw [runBatchN_succ_error hcb n] at hok
      exact absurd hok (by simp)
    · cases u
      rw [runBatchN_succ_ok hcb n] at hok ⊢
      simp only at hok
      have hqs : blocksChecked qs = [bn] := by
        have := checkBlock_blocksChecked O bn
        rw [hcb] at this
        exact this
      simp only [blocksChecked, List.filterMap_append]
      rw [show qs.filterMap (fun q => match q with | .unfiltered bn => some bn | _ => none) =
          blocksChecked qs from rfl, hqs]
      rw [show (runBatchN O (bn + 1) n).2.filterMap
          (fun q => match q with | .unfiltered bn => some bn | _ => none) =
          blocksChecked (runBatchN O (bn + 1) n).2 from rfl]
      rw [runBatchN_ok_trace O n (bn + 1) hok]
      rfl

/-- On failure, the batch loop fails at the first failing block `bn + k`,
with all earlier blocks passing, and checks exactly blocks `bn, …, bn+k`. -/
lemma runBatchN_error (O : Oracle) :
    ∀ (n bn : Nat) (e : Failure), (runBatchN O bn n).1 = .error e →
      ∃ k, k < n ∧ (checkBlock O (bn + k)).1 = .error e ∧
        (∀ j, j < k → (checkBlock O (bn + j)).1 = .ok ()) ∧
        blocksChecked (runBatchN O bn n).2 = List.range' bn (k + 1)
  | 0, bn, e, h => absurd h (by simp [runBatchN_zero])
  | n + 1, bn, e, h => by
    rcases hcb : checkBlock O bn with ⟨r, qs⟩
    rcases r with e' | u
    · rw [runBatchN_succ_error hcb n] at h ⊢
      simp only at h
      injection h with he
      subst he
      refine ⟨0, Nat.succ_pos n, ?_, fun j hj => absurd hj (by omega), ?_⟩
      · rw [Nat.add_zero, hcb]
      · have := checkBlock_blocksChecked O bn
        rw [hcb] at this
        simpa using this
    · cases u
      rw [runBatchN_succ_ok hcb n] at h ⊢
      simp only at h
      rcases runBatchN_error O n (bn + 1) e h with ⟨k, hk, hfail, hpass, htrace⟩
      refine ⟨k + 1, by omega, ?_, ?_, ?_⟩
      · rw [show bn + (k + 1) = bn + 1 + k by omega]
        exact hfail
      · intro j hj
        rcases j with _ | j'
        · rw [Nat.add_zero, hcb]
        · rw [show bn + (j' + 1) = bn + 1 + j' by omega]
          exact hpass j' (by omega)
      · have hqs : blocksChecked qs = [bn] := by
          have := checkBlock_blocksChecked O bn
          rw [hcb] at this
          exact this
        simp only [blocksChecked, List.filterMap_append]
        rw [show qs.filterMap (fun q => match q with | .unfiltered bn => some bn | _ => none) =
            blocksChecked qs from rfl, hqs]
        rw [show (runBatchN O (bn + 1) n).2.filterMap
            (fun q => match q with | .unfiltered bn => some bn | _ => none) =
            blocksChecked (runBatchN O (bn + 1) n).2 from rfl]
        rw [htrace]
        rfl

/-- Splitting a batch run: running `m + n` blocks from `bn` is running `m`
blocks, then (if no failure) `n` more from `bn + m`. -/
lemma runBatchN_append (O : Oracle) :
    ∀ (m bn n : Nat),
      (runBatchN O bn (m + n)).1 =
        (match (runBatchN O bn m).1 with
          | .error e => .error e
          | .ok _ => (runBatchN O (bn + m) n).1) ∧
      (runBatchN O bn (m + n)).2 =
        (runBatchN O bn m).2 ++
          (match (runBatchN O bn m).1 with
            | .error _ => []
            | .ok _ => (runBatchN O (bn + m) n).2)
  | 0, bn, n => by simp [runBatchN_zero]
  | m + 1, bn, n => by
    rcases hcb : checkBlock O bn with ⟨r, qs⟩
    rcases r with e | u
    · rw [show m + 1 + n = (m + n) + 1 by omega, runBatchN_succ_error hcb,
        runBatchN_succ_error hcb]
      simp
    · cases u
      rw [show m + 1 + n = (m + n) + 1 by omega, runBatchN_succ_ok hcb,
        runBatchN_succ_ok hcb]
      have ih := runBatchN_append O m (bn + 1) n
      rcases hr : (runBatchN O (bn + 1) m).1 with e' | u'
      · rw [hr] at ih
        simp only at ih ⊢
        rw [ih.1, ih.2]
        simp
      · cases u'
        rw [hr] at ih
        simp only at ih ⊢
        rw [ih.1, ih.2, show bn + (m + 1) = bn + 1 + m by omega]
        simp

/-- The batch structure of the range driver is semantically transparent:
running the range `[bn, t)` batch-by-batch equals one batch run of `t - bn`
consecutive blocks. -/
lemma runRange_eq_runBatchN (O : Oracle) (t : Nat) :
    ∀ (k bn : Nat), t - bn ≤ k → runRange O t bn = runBatchN O bn (t - bn)
  | k, bn, hk => by
    by_cases h : bn < t
    · have hkpos : k ≠ 0 := by omega
      rcases k with _ | k'
      · omega
      · have h1 : bn < min (bn + 10) t := by omega
        have h2 : min (bn + 10) t ≤ t := by omega
        have hsplit : (min (bn + 10) t - bn) + (t - min (bn + 10) t) = t - bn := by omega
        have hrec : t - min (bn + 10) t ≤ k' := by omega
        have ih := runRange_eq_runBatchN O t k' (min (bn + 10) t) hrec
        have happ := runBatchN_append O (min (bn + 10) t - bn) bn (t - min (bn + 10) t)
        rw [show bn + (min (bn + 10) t - bn) = min (bn + 10) t by omega, hsplit] at happ
        rw [runRange]
        rw [dif_pos h]
        simp only
        rcases hrb : runBatchN O bn (min (bn + 10) t - bn) with ⟨r, qs⟩
        rcases r with e | u
        · simp only
          rw [hrb] at happ
          simp only at happ
          rw [Prod.ext_iff]
          exact ⟨happ.1.symm, by rw [happ.2]; simp⟩
        · cases u
          simp only
          rw [hrb] at happ
          simp only at happ
          rw [ih]
          rw [Prod.ext_iff]
          exact ⟨happ.1.symm, happ.2.symm⟩
    · have : t - bn = 0 := by omega
      rw [this, runBatchN_zero, runRange, dif_neg h]

lemma EthGetLogsInvariants_bn_transport {O : Oracle} {f t : Nat} {m : String}
    (h : O.blockNumber = .error (.transport m)) :
    EthGetLogsInvariants O f t = (.error (.blockNumberTransport m), [.blockNumber]) := by
  unfold EthGetLogsInvariants
  rw [h]

lemma EthGetLogsInvariants_bn_rpc {O : Oracle} {f t : Nat} {c : Int} {m : String}
    (h : O.blockNumber = .error (.rpc c m)) :
    EthGetLogsInvariants O f t = (.error (.blockNumberRpc c m), [.blockNumber]) := by
  unfold EthGetLogsInvariants
  rw [h]

lemma EthGetLogsInvariants_bn_ok {O : Oracle} {f t n : Nat}
    (h : O.blockNumber = .ok n) :
    EthGetLogsInvariants O f t =
      ((runBatchN O f (t - f)).1, .blockNumber :: (runBatchN O f (t - f)).2) := by
  unfold EthGetLogsInvariants
  rw [h, runRange_eq_runBatchN O t (t - f) f le_rfl]

lemma blocksChecked_cons_blockNumber (qs : List Query) :
    blocksChecked (Query.blockNumber :: qs) = blocksChecked qs := rfl

/-- C1 (address completeness): for a block `bn` whose unfiltered result is
`logs`, (i) if the block check succeeds, every address appearing in `logs`
had an address-filtered query issued with a non-empty answer; (ii) whenever
an address-filtered query for `a` was issued and the filtered result is
empty, the check fails with `addrNotIndexed` naming the address `a` and the
block number `bn`; (iii) hence an address of `logs` whose filtered result is
empty makes the block check fail. -/
theorem C1_address_completeness (O : Oracle) (bn : Nat) (logs : List Log)
    (hq : O.getLogsNoFilters bn = .ok logs) :
    ((checkBlock O bn).1 = .ok () →
      ∀ l ∈ logs, Query.byAddr bn l.address ∈ (checkBlock O bn).2 ∧
        ∃ fl, O.getLogsAddr bn l.address = .ok fl ∧ fl ≠ []) ∧
    (∀ a, Query.byAddr bn a ∈ (checkBlock O bn).2 → O.getLogsAddr bn a = .ok [] →
      (checkBlock O bn).1 = .error (.addrNotIndexed bn a)) ∧
    (∀ a, a ∈ logs.map Log.address → O.getLogsAddr bn a = .ok [] →
      (checkBlock O bn).1 ≠ .ok ()) := by
  rcases hd : noDuplicates logs with _ | i
  · rw [checkBlock_nodup hq hd]
    simp only
    refine ⟨?_, ?_, ?_⟩
    · intro hok l hl
      rcases checkLogsLoop_ok_addr O bn logs [] [] hok l hl with hin | ⟨hqr, hfl⟩
      · exact absurd hin (List.not_mem_nil _)
      · exact ⟨List.mem_cons_of_mem _ hqr, hfl⟩
    · intro a hqa hemp
      rcases List.mem_cons.mp hqa with hhead | htail
      · exact absurd hhead (by simp)
      · exact checkLogsLoop_byAddr_empty O bn logs [] [] a htail hemp
    · intro a ha hemp hok
      rcases List.mem_map.mp ha with ⟨l, hl, hla⟩
      rcases checkLogsLoop_ok_addr O bn logs [] [] hok l hl with hin | ⟨_, fl, hfl, hne⟩
      · exact absurd hin (List.not_mem_nil _)
      · rw [hla, hemp] at hfl
        exact hne (by injection hfl with h2; exact h2.symm)
  · rw [checkBlock_dup hq hd]
    simp only
    refine ⟨?_, ?_, ?_⟩
    · intro hok
      exact absurd hok (by simp)
    · intro a hqa _
      exact absurd (List.mem_singleton.mp hqa) (by simp)
    · intro a _ _ hok
      exact absurd hok (by simp)

/-- Witness for C1: in the block-6 scenario (one log of address 11, empty
address-filtered result) the check fails naming address 11 and block 6. -/
theorem C1_address_completeness_witness :
    (checkBlock oracleAddrEmpty6 6).1 = .error (.addrNotIndexed 6 11) :=
  (C1_address_completeness oracleAddrEmpty6 6 [⟨11, [], 0⟩] rfl).2.1 11
    (by decide) rfl

/-- Counterexample to C2 as stated: in `oracleSkippedTopic`'s block 7 the
entry `⟨10, [2], 1⟩` appears in the unfiltered result, its first topic 2 is
never checked in this block (no (·, 2)-filtered query occurs in the trace),
the (10, 2)-filtered result is empty — yet the block check succeeds and
never issues the query, because the entry is skipped: its address 10 was
already handled for the earlier entry `⟨10, [1], 0⟩`. -/
theorem C2_counterexample :
    oracleSkippedTopic.getLogsNoFilters 7 = .ok [⟨10, [1], 0⟩, ⟨10, [2], 1⟩] ∧
    oracleSkippedTopic.getLogsAddrTopic 7 10 2 = .ok [] ∧
    (checkBlock oracleSkippedTopic 7).1 = .ok () ∧
    Query.byAddrTopic 7 10 2 ∉ (checkBlock oracleSkippedTopic 7).2 ∧
    (∀ a, Query.byAddrTopic 7 a 2 ∉ (checkBlock oracleSkippedTopic 7).2) := by
  refine ⟨rfl, rfl, by decide, by decide, ?_⟩
  intro a
  have htr : (checkBlock oracleSkippedTopic 7).2 =
      [.unfiltered 7, .byAddr 7 10, .byAddrTopic 7 10 1] := by decide
  rw [htr]
  simp

/-- C2 amended (topic completeness as implemented): a topic-filtered query is
issued only for an entry that is the first occurrence of its address in the
unfiltered result and whose first topic is new in this block.  Precisely:
(i) if the block check succeeds then, for every entry `l` of the unfiltered
result that is the first entry carrying its address, if `l` has a first
topic `t`, some (address, `t`)-filtered query was issued and answered
non-empty; (ii) whenever an (address, topic)-filtered query is issued and
the filtered result is empty, the check fails with `topicNotIndexed` naming
that address and topic.  (Entries whose address already occurred earlier are
skipped whole, so their first topics — e.g. `(10, 2)` in
`oracleSkippedTopic` — are never verified.) -/
theorem C2_topic_completeness_amended (O : Oracle) (bn : Nat) (logs : List Log)
    (hq : O.getLogsNoFilters bn = .ok logs) :
    ((checkBlock O bn).1 = .ok () →
      ∀ (pre : List Log) (l : Log) (post : List Log),
        logs = pre ++ l :: post →
        (∀ l' ∈ pre, l'.address ≠ l.address) →
        ∀ (t : Nat) (ts : List Nat), l.topics = t :: ts →
        ∃ a, Query.byAddrTopic bn a t ∈ (checkBlock O bn).2 ∧
          ∃ fl, O.getLogsAddrTopic bn a t = .ok fl ∧ fl ≠ []) ∧
    (∀ a t, Query.byAddrTopic bn a t ∈ (checkBlock O bn).2 →
      O.getLogsAddrTopic bn a t = .ok [] →
      (checkBlock O bn).1 = .error (.topicNotIndexed bn a t)) := by
  rcases hd : noDuplicates logs with _ | i
  · rw [checkBlock_nodup hq hd]
    simp only
    constructor
    · intro hok pre l post hsplit hpre t ts htop
      rcases checkLogsLoop_ok_topic O bn logs [] [] hok pre l post hsplit hpre
          (List.not_mem_nil _) t ts htop with hin | ⟨a, hqr, hfl⟩
      · exact absurd hin (List.not_mem_nil _)
      · exact ⟨a, List.mem_cons_of_mem _ hqr, hfl⟩
    · intro a t hqa hemp
      rcases List.mem_cons.mp hqa with hhead | htail
      · exact absurd hhead (by simp)
      · exact checkLogsLoop_byAddrTopic_empty O bn logs [] [] a t htail hemp
  · rw [checkBlock_dup hq hd]
    simp only
    constructor
    · intro hok
      exact absurd hok (by simp)
    · intro a t hqa _
      exact absurd (List.mem_singleton.mp hqa) (by simp)

/-- Witness for the amended C2: in the block-7 scenario the first entry
`⟨12, [9], 0⟩` is the first occurrence of address 12, and its topic 9 is
indeed verified by a non-empty (12, 9)-filtered query. -/
theorem C2_topic_completeness_amended_witness :
    ∃ a, Query.byAddrTopic 7 a 9 ∈ (checkBlock oracleBlock7 7).2 ∧
      ∃ fl, oracleBlock7.getLogsAddrTopic 7 a 9 = .ok fl ∧ fl ≠ [] :=
  (C2_topic_completeness_amended oracleBlock7 7 [⟨12, [9], 0⟩, ⟨12, [], 1⟩] rfl).1
    (by decide) [] ⟨12, [9], 0⟩ [⟨12, [], 1⟩] rfl
    (fun l' hl' => absurd hl' (List.not_mem_nil _)) 9 [] rfl

/-- Counterexample to C4 as stated: for `blockFrom = blockTo = 0` the entry
point still makes one RPC call — the initial `eth_blockNumber` query — so
"zero RPC calls" is false (the trace is `[blockNumber]`, not `[]`). -/
theorem C4_counterexample :
    (EthGetLogsInvariants oracleEmpty 0 0).2 = [Query.blockNumber] ∧
    (EthGetLogsInvariants oracleEmpty 0 0).2 ≠ [] := by
  have h := EthGetLogsInvariants_bn_ok (O := oracleEmpty) (f := 0) (t := 0) (n := 0) rfl
  rw [h]
  simp [runBatchN_zero]

/-- C4 amended: when `blockFrom = blockTo`, the entry point issues exactly
one RPC call (`eth_blockNumber`) and no `eth_getLogs` call, and it returns
success iff that single call succeeds (it returns the block-number error
otherwise). -/
theorem C4_equal_range_trivial (O : Oracle) (f : Nat) :
    (EthGetLogsInvariants O f f).2 = [Query.blockNumber] ∧
    ((EthGetLogsInvariants O f f).1 = .ok () ↔ ∃ n, O.blockNumber = .ok n) := by
  rcases hb : O.blockNumber with e | n
  · rcases e with m | ⟨c, m⟩
    · rw [EthGetLogsInvariants_bn_transport hb]
      simp [hb]
    · rw [EthGetLogsInvariants_bn_rpc hb]
      simp [hb]
  · rw [EthGetLogsInvariants_bn_ok hb]
    rw [Nat.sub_self, runBatchN_zero]
    simp [hb]

/-- C5 (range coverage): whenever the entry point succeeds, the blocks
checked (those given an unfiltered query) are exactly
`blockFrom, blockFrom+1, …, blockTo-1` in order — `blockTo - blockFrom`
distinct blocks, each exactly once.  (The batch-of-10 structure of the
driver is semantically transparent: `runRange_eq_runBatchN`.) -/
theorem C5_range_coverage (O : Oracle) (f t : Nat)
    (hok : (EthGetLogsInvariants O f t).1 = .ok ()) :
    blocksChecked (EthGetLogsInvariants O f t).2 = List.range' f (t - f) ∧
    (blocksChecked (EthGetLogsInvariants O f t).2).length = t - f ∧
    (blocksChecked (EthGetLogsInvariants O f t).2).Nodup := by
  rcases hb : O.blockNumber with e | n
  · rcases e with m | ⟨c, m⟩
    · rw [EthGetLogsInvariants_bn_transport hb] at hok
      exact absurd hok (by simp)
    · rw [EthGetLogsInvariants_bn_rpc hb] at hok
      exact absurd hok (by simp)
  · rw [EthGetLogsInvariants_bn_ok hb] at hok ⊢
    simp only at hok
    have h1 := runBatchN_ok_trace O (t - f) f hok
    rw [blocksChecked_cons_blockNumber, h1]
    exact ⟨rfl, List.length_range' f 1 (t - f), List.nodup_range' f (t - f)⟩

/-- Witness for C5: with an all-empty collaborator and the range
`[100, 130)`, the run succeeds and checks exactly the 30 blocks
`100, …, 129`, each once. -/
theorem C5_range_coverage_witness :
    blocksChecked (EthGetLogsInvariants oracleEmpty 100 130).2 =
      List.range' 100 (130 - 100) ∧
    (blocksChecked (EthGetLogsInvariants oracleEmpty 100 130).2).length = 130 - 100 ∧
    (blocksChecked (EthGetLogsInvariants oracleEmpty 100 130).2).Nodup :=
  C5_range_coverage oracleEmpty 100 130
    (by rw [EthGetLogsInvariants_bn_ok (n := 0) rfl]; decide)

/-- C6 (fail-fast): assuming the initial `eth_blockNumber` call succeeds,
the entry point (i) succeeds iff every block of `[blockFrom, blockTo)`
passes its check, and (ii) on failure returns exactly the failure of the
first failing block: some `bn` in range fails with that very error, all
blocks before `bn` pass, and the blocks checked are exactly
`blockFrom, …, bn` — none beyond the failing block (hence none beyond its
batch). -/
theorem C6_fail_fast (O : Oracle) (f t n : Nat) (hbn : O.blockNumber = .ok n) :
    ((EthGetLogsInvariants O f t).1 = .ok () ↔
      ∀ bn, f ≤ bn → bn < t → (checkBlock O bn).1 = .ok ()) ∧
    (∀ e, (EthGetLogsInvariants O f t).1 = .error e →
      ∃ bn, f ≤ bn ∧ bn < t ∧ (checkBlock O bn).1 = .error e ∧
        (∀ j, f ≤ j → j < bn → (checkBlock O j).1 = .ok ()) ∧
        blocksChecked (EthGetLogsInvariants O f t).2 = List.range' f (bn + 1 - f)) := by
  rw [EthGetLogsInvariants_bn_ok hbn]
  simp only
  constructor
  · rw [runBatchN_ok_iff O (t - f) f]
    constructor
    · intro h bn h1 h2
      have := h (bn - f) (by omega)
      rwa [show f + (bn - f) = bn by omega] at this
    · intro h k hk
      exact h (f + k) (by omega) (by omega)
  · intro e herr
    rcases runBatchN_error O (t - f) f e herr with ⟨k, hk, hfail, hpass, htrace⟩
    refine ⟨f + k, by omega, by omega, hfail, ?_, ?_⟩
    · intro j h1 h2
      have := hpass (j - f) (by omega)
      rwa [show f + (j - f) = j by omega] at this
    · rw [blocksChecked_cons_blockNumber, htrace,
        show f + k + 1 - f = k + 1 by omega]

/-- Witness for C6: with `oracleDupBlock5` over `[0, 20)` the run fails with
the duplicate-index failure of block 5; blocks 0–4 pass, and exactly blocks
0–5 are checked (none of 6–19). -/
theorem C6_fail_fast_witness :
    ∃ bn, 0 ≤ bn ∧ bn < 20 ∧
      (checkBlock oracleDupBlock5 bn).1 = .error (.dupIndex 5 0) ∧
      (∀ j, 0 ≤ j → j < bn → (checkBlock oracleDupBlock5 j).1 = .ok ()) ∧
      blocksChecked (EthGetLogsInvariants oracleDupBlock5 0 20).2 =
        List.range' 0 (bn + 1 - 0) :=
  (C6_fail_fast oracleDupBlock5 0 20 0 rfl).2 (.dupIndex 5 0)
    (by rw [EthGetLogsInvariants_bn_ok (n := 0) rfl]; decide)

/-- C7 (idempotent per-block skip): within one block's check, at most one
address-filtered query is ever issued per address value and at most one
topic-filtered query per first-topic value; and in the block-7 scenario
(two entries of address 12, one with topic 9 and one without topics) the
check succeeds issuing exactly 2 filtered queries — one address query and
one topic query — not 3. -/
theorem C7_at_most_one_filtered_query :
    (∀ (O : Oracle) (bn a : Nat),
      (checkBlock O bn).2.countP (isAddrQueryFor a) ≤ 1) ∧
    (∀ (O : Oracle) (bn t : Nat),
      (checkBlock O bn).2.countP (isTopicQueryFor t) ≤ 1) ∧
    checkBlock oracleBlock7 7 =
      (.ok (), [.unfiltered 7, .byAddr 7 12, .byAddrTopic 7 12 9]) := by
  refine ⟨?_, ?_, by decide⟩
  · intro O bn a
    rcases hq : O.getLogsNoFilters bn with e | logs
    · rw [checkBlock_unfiltered_error hq]
      simp [isAddrQueryFor]
    · rcases hd : noDuplicates logs with _ | i
      · rw [checkBlock_nodup hq hd]
        simp only [List.countP_cons, isAddrQueryFor, Bool.false_eq_true, if_false,
          Nat.add_zero]
        exact (checkLogsLoop_countAddr O bn logs [] [] a).2
      · rw [checkBlock_dup hq hd]
        simp [isAddrQueryFor]
  · intro O bn t
    rcases hq : O.getLogsNoFilters bn with e | logs
    · rw [checkBlock_unfiltered_error hq]
      simp [isTopicQueryFor]
    · rcases hd : noDuplicates logs with _ | i
      · rw [checkBlock_nodup hq hd]
        simp only [List.countP_cons, isTopicQueryFor, Bool.false_eq_true, if_false,
          Nat.add_zero]
        exact (checkLogsLoop_countTopic O bn logs [] [] t).2
      · rw [checkBlock_dup hq hd]
        simp [isTopicQueryFor]

/-- C8 (duplicate short-circuit): if the unfiltered result of a block has a
repeated log-index value, the block check fails with `dupIndex` naming the
block and a value that repeats, and its whole trace is the single
unfiltered query — no filtered query is issued after it. -/
theorem C8_duplicate_short_circuit (O : Oracle) (bn : Nat) (logs : List Log)
    (hq : O.getLogsNoFilters bn = .ok logs)
    (hdup : ¬ (logs.map Log.index).Nodup) :
    ∃ i, 2 ≤ (logs.map Log.index).count i ∧
      checkBlock O bn = (.error (.dupIndex bn i), [.unfiltered bn]) := by
  rcases hd : noDuplicates logs with _ | i
  · exact absurd ((noDuplicates_eq_none_iff logs).mp hd) hdup
  · exact ⟨i, noDuplicates_some_count hd, checkBlock_dup hq hd⟩

/-- Witness for C8: block 5 of `oracleDupBlock5` returns two entries with
index 0; the check fails with `dupIndex 5 _` after the unfiltered query
alone. -/
theorem C8_duplicate_short_circuit_witness :
    ∃ i, 2 ≤ (([⟨10, [1], 0⟩, ⟨10, [1], 0⟩] : List Log).map Log.index).count i ∧
      checkBlock oracleDupBlock5 5 = (.error (.dupIndex 5 i), [.unfiltered 5]) :=
  C8_duplicate_short_circuit oracleDupBlock5 5 [⟨10, [1], 0⟩, ⟨10, [1], 0⟩]
    rfl (by decide)

/-- Counterexample to C9 as stated: a transport error on block 5's
unfiltered query makes the check fail, but the resulting failure — modelled
exactly after `fmt.Errorf("Could not get modified accounts (Erigon): %v",
res.Err)` — carries no block number at all (`blockNum = none`, not
`some 5`): the error message has no block-number format verb. -/
theorem C9_counterexample :
    (checkBlock oracleTransport5 5).1 = .error (.getLogsTransport "timeout") ∧
    Failure.blockNum (.getLogsTransport "timeout") = none := by
  exact ⟨rfl, rfl⟩

/-- C9 amended: a transport-level or RPC-level error on any log query issued
while checking block `bn` makes the block check fail with the corresponding
`getLogsTransport` / `getLogsRpc` failure — which carries the underlying
error data but **not** the block number (its `blockNum` is `none`). -/
theorem C9_query_error_amended (O : Oracle) (bn : Nat) (e : QueryError)
    (hmem : ∃ q ∈ (checkBlock O bn).2, logQueryAnswer O q = .error e) :
    (checkBlock O bn).1 = .error (queryFailure e) ∧
    (queryFailure e).blockNum = none := by
  constructor
  · rcases hmem with ⟨q, hqmem, hqa⟩
    rcases hu : O.getLogsNoFilters bn with e' | logs
    · rw [checkBlock_unfiltered_error hu] at hqmem ⊢
      have hQ := List.mem_singleton.mp hqmem
      subst hQ
      simp only [logQueryAnswer] at hqa
      rw [hu] at hqa
      injection hqa with he
      rw [he]
    · rcases hd : noDuplicates logs with _ | i
      · rw [checkBlock_nodup hu hd] at hqmem ⊢
        rcases List.mem_cons.mp hqmem with hhead | htail
        · subst hhead
          simp only [logQueryAnswer] at hqa
          rw [hu] at hqa
          exact absurd hqa (by simp)
        · exact checkLogsLoop_query_error O bn logs [] [] q e htail hqa
      · rw [checkBlock_dup hu hd] at hqmem ⊢
        have hQ := List.mem_singleton.mp hqmem
        subst hQ
        simp only [logQueryAnswer] at hqa
        rw [hu] at hqa
        exact absurd hqa (by simp)
  · rcases e with m | ⟨c, m⟩ <;> rfl

/-- Witness for the amended C9: the transport error "timeout" on block 5's
unfiltered query yields exactly `getLogsTransport "timeout"`, whose carried
block number is `none`. -/
theorem C9_query_error_amended_witness :
    (checkBlock oracleTransport5 5).1 =
      .error (queryFailure (.transport "timeout")) ∧
    (queryFailure (.transport "timeout")).blockNum = none :=
  C9_query_error_amended oracleTransport5 5 (.transport "timeout")
    ⟨Query.unfiltered 5, by decide, rfl⟩
